import Mathlib

/-!
Verification of the search-normalization core of `books.py`: the codepoint
folding table (`UnaccentedMap`), the text folder (`str.translate`), the
search-query builder (`Application.Select`), the indexed-content builder
(`Application.MakeFtsContent`), and the sort machinery
(`Application.SortBy` and the column-heading toggle state).

External data and collaborators are parameters:
`unicodedata.decomposition` is a function `Nat → String` (a finite, accurate
sample of the Unicode Character Database is provided as `unicodeDecomp`),
and `locale.strxfrm` is a function `String → String`.
-/

/-- `UnaccentedMap.CHAR_REPLACEMENT`: the explicit override table, keyed by
codepoint, from books.py lines 31-55.  Entries are listed in source order. -/
def CHAR_REPLACEMENT : List (Nat × String) := [
  (0xC6, "AE"),   -- Latin capital letter AE
  (0xE6, "ae"),   -- Latin small letter ae
  (0xD0, "D"),    -- Latin capital letter Eth
  (0xF0, "d"),    -- Latin small letter eth
  (0xD8, "OE"),   -- Latin capital letter O with stroke
  (0xF8, "oe"),   -- Latin small letter o with stroke
  (0xDE, "Th"),   -- Latin capital letter Thorn
  (0xFE, "th"),   -- Latin small letter thorn
  (0xDF, "ss"),   -- Latin small letter sharp s
  (0x110, "Dj"),  -- Latin capital letter D with stroke
  (0x111, "dj"),  -- Latin small letter d with stroke
  (0x126, "H"),   -- Latin capital letter H with stroke
  (0x127, "h"),   -- Latin small letter h with stroke
  (0x131, "i"),   -- Latin small letter dotless i
  (0x138, "q"),   -- Latin small letter kra
  (0x141, "L"),   -- Latin capital letter L with stroke
  (0x142, "l"),   -- Latin small letter l with stroke
  (0x14A, "Ng"),  -- Latin capital letter Eng
  (0x14B, "ng"),  -- Latin small letter eng
  (0x152, "OE"),  -- Latin capital ligature OE
  (0x153, "oe"),  -- Latin small ligature oe
  (0x166, "Th"),  -- Latin capital letter T with stroke
  (0x167, "th")]  -- Latin small letter t with stroke

/-- ASCII whitespace, the separator class of Python `str.split()` on the
strings this program splits (search input and decomposition fields). -/
def isPySpace (c : Char) : Bool :=
  c = ' ' || c = '\t' || c = '\n' || c = '\r' || c = '\x0b' || c = '\x0c'

/-- Tokenizer behind `pySplit`: walks the characters, accumulating the
current token in reverse; whitespace closes the token (empty tokens are
never emitted). -/
def pySplitAux : List Char → List Char → List String
  | [], acc =>
    match acc with
    | [] => []
    | _ => [String.mk acc.reverse]
  | c :: cs, acc =>
    if isPySpace c then
      match acc with
      | [] => pySplitAux cs []
      | _ => String.mk acc.reverse :: pySplitAux cs []
    else pySplitAux cs (c :: acc)

/-- Python `s.split()` with no separator: split on whitespace runs,
discarding empty tokens. -/
def pySplit (s : String) : List String :=
  pySplitAux s.data []

/-- Value of one hexadecimal digit. -/
def hexDigitVal (c : Char) : Option Nat :=
  if '0' ≤ c ∧ c ≤ '9' then some (c.toNat - '0'.toNat)
  else if 'a' ≤ c ∧ c ≤ 'f' then some (c.toNat - 'a'.toNat + 10)
  else if 'A' ≤ c ∧ c ≤ 'F' then some (c.toNat - 'A'.toNat + 10)
  else none

/-- Python `int(tok, 16)` on a whitespace-free token: succeeds exactly on a
nonempty string of hexadecimal digits (the only successful shape occurring in
Unicode decomposition fields); `none` models `ValueError`. -/
def parseHex (s : String) : Option Nat :=
  if s.data = [] then none
  else s.data.foldl
    (fun acc c =>
      match acc, hexDigitVal c with
      | some n, some d => some (16 * n + d)
      | _, _ => none)
    (some 0)

/-- A value stored in the `UnaccentedMap` dict: either a codepoint (`int` in
Python, produced by the decomposition and identity branches) or a replacement
string (produced by `CHAR_REPLACEMENT`).  `str.translate` accepts both. -/
inductive FoldVal where
  | cp (n : Nat)
  | str (s : String)
deriving DecidableEq, Repr

/-- The pure computation of `UnaccentedMap.__missing__` (books.py lines 57-70)
for one codepoint, with `unicodedata.decomposition` as the `decomp` parameter:
if the decomposition field is nonempty, parse its first whitespace-delimited
token as hex (`IndexError`/`ValueError` fall back to the key itself);
otherwise consult `CHAR_REPLACEMENT`, defaulting to the key itself. -/
def foldCharVal (decomp : Nat → String) (key : Nat) : FoldVal :=
  if decomp key = "" then
    match CHAR_REPLACEMENT.lookup key with
    | some s => .str s
    | none => .cp key
  else
    match (pySplit (decomp key)).head? with
    | none => .cp key
    | some tok =>
      match parseHex tok with
      | some n => .cp n
      | none => .cp key

/-- How `str.translate` renders a stored map value: an `int` value `n`
replaces the character by `chr(n)`, a string value replaces it verbatim. -/
def foldValStr : FoldVal → String
  | .cp n => String.singleton (Char.ofNat n)
  | .str s => s

/-- The replacement string `str.translate(UNACCENTED)` produces for one
character. -/
def foldCharStr (decomp : Nat → String) (c : Char) : String :=
  foldValStr (foldCharVal decomp c.toNat)

/-- `str.translate(UNACCENTED)` over a list of characters: each character's
replacement, concatenated in order. -/
def foldList (decomp : Nat → String) : List Char → String
  | [] => ""
  | c :: cs => foldCharStr decomp c ++ foldList decomp cs

/-- `s.translate(UNACCENTED)`: the text folder. -/
def foldText (decomp : Nat → String) (s : String) : String :=
  foldList decomp s.data

/-- Decomposition fields from the Unicode Character Database for the
codepoints exercised concretely in this development; every codepoint not
listed here (in particular every `CHAR_REPLACEMENT` key, ASCII letters and
combining marks such as U+0301) has an empty decomposition field, matching
`unicodedata.decomposition`. -/
def unicodeDecompTable : List (Nat × String) := [
  (0xE9, "0065 0301"),     -- U+00E9 e with acute
  (0xE2, "0061 0302"),     -- U+00E2 a with circumflex
  (0x1EA5, "00E2 0301"),   -- U+1EA5 a with circumflex and acute
  (0xFB01, "<compat> 0066 0069"),  -- U+FB01 ligature fi
  (0xB2, "<super> 0032")]  -- U+00B2 superscript two

/-- `unicodedata.decomposition` restricted to the sampled table. -/
def unicodeDecomp (n : Nat) : String :=
  (unicodeDecompTable.lookup n).getD ""

/-- The `UnaccentedMap` dict contents: an association list from codepoints to
stored values. -/
abbrev UnaccentedCache : Type := List (Nat × FoldVal)

/-- One `UNACCENTED[key]` lookup: a dict hit returns the stored value and
leaves the dict alone; a miss runs `__missing__` (books.py lines 57-70),
which computes the value, stores it (`self[key] = ch`) and returns it. -/
def cacheLookup (decomp : Nat → String) (m : UnaccentedCache) (key : Nat) :
    FoldVal × UnaccentedCache :=
  match List.lookup key m with
  | some v => (v, m)
  | none => (foldCharVal decomp key, (key, foldCharVal decomp key) :: m)

/-- A dict state in which every stored entry is the value `__missing__`
computes for its key. -/
def CacheConsistent (decomp : Nat → String) (m : UnaccentedCache) : Prop :=
  ∀ k v, (k, v) ∈ m → v = foldCharVal decomp k

/-- The folding rule in the order in which the spec words it: first the
explicit override table, otherwise the first component of a nonempty
decomposition (unparseable data falling back to identity), otherwise
identity. -/
def foldCharSpecOrder (decomp : Nat → String) (key : Nat) : FoldVal :=
  match CHAR_REPLACEMENT.lookup key with
  | some s => .str s
  | none =>
    if decomp key = "" then .cp key
    else
      match (pySplit (decomp key)).head? with
      | none => .cp key
      | some tok =>
        match parseHex tok with
        | some n => .cp n
        | none => .cp key

/-- Python `l[a:b]` for `0 ≤ a ≤ b`. -/
def pySlice (l : List α) (a b : Nat) : List α :=
  (l.take b).drop a

/-- `Column` indices from books.py lines 75-84. -/
def Column.SHELF : Nat := 1

def Column.AUTHOR : Nat := 2

def Column.ORIGINAL_TITLE : Nat := 5

/-- `Application.MakeFtsContent` (books.py lines 224-230): slice the
author..original_title fields out of the shelf..borrowed content list, drop
falsy (empty) fields, join with single spaces, then fold. -/
def MakeFtsContent (decomp : Nat → String) (content : List String) : String :=
  foldText decomp
    (String.intercalate " "
      ((pySlice content (Column.AUTHOR - Column.SHELF)
          (Column.ORIGINAL_TITLE + 1 - Column.SHELF)).filter (fun x => x ≠ "")))

/-- The search pattern built in `Application.Select` (books.py lines
236-237): split the raw search string on whitespace, append `*` to each
token, join with single spaces, then fold the joined expression. -/
def BuildQuery (decomp : Nat → String) (raw : String) : String :=
  foldText decomp
    (String.intercalate " " ((pySplit raw).map (fun s => s ++ "*")))

/-- Lexicographic comparison of two character lists, the order in which
Python compares the byte strings `locale.strxfrm` returns. -/
def lexLeChars : List Char → List Char → Bool
  | [], _ => true
  | _ :: _, [] => false
  | a :: as, b :: bs =>
    if a.toNat < b.toNat then true
    else if b.toNat < a.toNat then false
    else lexLeChars as bs

/-- `xfrm a` compares at most `xfrm b`. -/
def keyLe (xfrm : String → String) (a b : String) : Bool :=
  lexLeChars (xfrm a).data (xfrm b).data

/-- The comparison `Application.SortBy`'s `data.sort` uses on its
`(cell, child)` pairs: ascending by `locale.strxfrm` of the cell, or the
reverse of that when `reverse` is set; `list.sort` is stable, so ties keep
their prior relative order in both directions. -/
def sortLe (xfrm : String → String) (reverse : Bool) (a b : String × Nat) : Prop :=
  (if reverse then keyLe xfrm b.1 a.1 else keyLe xfrm a.1 b.1) = true

instance (xfrm : String → String) (reverse : Bool) :
    DecidableRel (sortLe xfrm reverse) :=
  fun a b =>
    instDecidableEqBool (if reverse then keyLe xfrm b.1 a.1 else keyLe xfrm a.1 b.1) true

/-- `data.sort(key=lambda it: locale.strxfrm(it[0]), reverse=reverse)`
(books.py line 355), modelled as a stable sort under `sortLe`. -/
def sortData (xfrm : String → String) (reverse : Bool) (data : List (String × Nat)) :
    List (String × Nat) :=
  data.insertionSort (sortLe xfrm reverse)

/-- The sorting state `Application` carries: `clicked_column` and `reverse`
(books.py lines 150-151, 361-362), plus, for each column heading, the
`reverse` argument its click command will pass to `SortBy` (initially
`False` for every heading, line 149; rebound per column on line 358-360). -/
structure AppSortState where
  clickedColumn : String
  reverse : Bool
  headingReverse : String → Bool

/-- The state just after `Application.__init__` lines 146-151: every heading
command passes `False`, `clicked_column` is the Author column and `reverse`
is `False`.  (`__init__` then calls `Select`, see `initState`.) -/
def preInitState : AppSortState :=
  { clickedColumn := "Author", reverse := false, headingReverse := fun _ => false }

/-- `Application.SortBy(column, reverse)` (books.py lines 351-363) as a state
transformer: rebinds the clicked column's heading command to the negated
direction and records the last-sorted column and direction. -/
def sortByState (s : AppSortState) (column : String) (reverse : Bool) : AppSortState :=
  { clickedColumn := column,
    reverse := reverse,
    headingReverse := fun c => if c = column then !reverse else s.headingReverse c }

/-- A click on a column heading: runs the command currently bound to that
heading, i.e. `SortBy(column, r)` with the remembered argument `r`. -/
def clickHeader (s : AppSortState) (column : String) : AppSortState :=
  sortByState s column (s.headingReverse column)

/-- The resort at the end of `Application.Select` (books.py line 251):
`SortBy(self.clicked_column, self.reverse)`, reapplying the remembered
column and direction after the rows are refreshed. -/
def refreshState (s : AppSortState) : AppSortState :=
  sortByState s s.clickedColumn s.reverse

/-- The state after `Application.__init__` completes: `__init__` ends with
`Select`, which ends with `SortBy(clicked_column, reverse)`. -/
def initState : AppSortState :=
  refreshState preInitState

/-- States the application can reach from startup through heading clicks
and refreshes. -/
inductive ReachableSortState : AppSortState → Prop
  | init : ReachableSortState initState
  | click (s : AppSortState) (c : String) :
      ReachableSortState s → ReachableSortState (clickHeader s c)
  | refresh (s : AppSortState) :
      ReachableSortState s → ReachableSortState (refreshState s)

/-! Helper lemmas. -/

/-- A successful association-list lookup comes from a member of the list. -/
theorem lookup_mem {β : Type} {l : List (Nat × β)} {k : Nat} {v : β}
    (h : List.lookup k l = some v) : (k, v) ∈ l := by
  induction l with
  | nil => simp [List.lookup] at h
  | cons p ps ih =>
    obtain ⟨a, b⟩ := p
    rw [List.lookup_cons] at h
    by_cases hk : (k == a) = true
    · rw [hk] at h
      simp only [Option.some.injEq] at h
      have hka : k = a := by simpa using hk
      subst hka
      subst h
      exact List.mem_cons_self _ _
    · rw [Bool.not_eq_true] at hk
      rw [hk] at h
      exact List.mem_cons_of_mem _ (ih h)

/-- Folding a list of characters that each fold to themselves reproduces the
list. -/
theorem foldList_eq_self (decomp : Nat → String) :
    ∀ l : List Char, (∀ c ∈ l, foldCharStr decomp c = String.singleton c) →
      foldList decomp l = String.mk l
  | [], _ => rfl
  | c :: cs, h => by
    have h1 : foldCharStr decomp c = String.singleton c := h c (List.mem_cons_self _ _)
    have h2 : foldList decomp cs = String.mk cs :=
      foldList_eq_self decomp cs (fun d hd => h d (List.mem_cons_of_mem _ hd))
    show foldCharStr decomp c ++ foldList decomp cs = String.mk (c :: cs)
    rw [h1, h2]
    rfl

/-- Lexicographic comparison is reflexive. -/
theorem lexLeChars_refl : ∀ l : List Char, lexLeChars l l = true
  | [] => rfl
  | c :: cs => by
    show (if c.toNat < c.toNat then true
      else if c.toNat < c.toNat then false else lexLeChars cs cs) = true
    rw [if_neg (Nat.lt_irrefl _), if_neg (Nat.lt_irrefl _)]
    exact lexLeChars_refl cs

/-- Rows with equal collation keys are related by the sort comparison in
either direction. -/
theorem sortLe_of_key_eq (xfrm : String → String) (reverse : Bool)
    {u v : String × Nat} (h : xfrm u.1 = xfrm v.1) : sortLe xfrm reverse u v := by
  unfold sortLe keyLe
  rw [h]
  cases reverse <;> simp [lexLeChars_refl]

/-- In every reachable state, the heading command of the last-sorted column
passes the negation of the remembered direction. -/
theorem reachable_toggle_inv {s : AppSortState} (h : ReachableSortState s) :
    s.headingReverse s.clickedColumn = !s.reverse := by
  induction h with
  | init => decide
  | click s c _ _ => simp [clickHeader, sortByState]
  | refresh s _ _ => simp [refreshState, sortByState]

/-! Claim theorems. -/

/-- C7: the folding table maps U+00C6 to "AE", U+00DF to "ss", U+00E9 to "e"
and the ASCII letter a to itself. -/
theorem fold_known_mappings :
    foldCharStr unicodeDecomp (Char.ofNat 0xC6) = "AE" ∧
    foldCharStr unicodeDecomp (Char.ofNat 0xDF) = "ss" ∧
    foldCharStr unicodeDecomp (Char.ofNat 0xE9) = "e" ∧
    foldCharStr unicodeDecomp 'a' = "a" := by
  refine ⟨?_, ?_, ?_, ?_⟩ <;> decide

/-- C10: the combining acute accent U+0301 has no decomposition and no
override entry, so it folds to itself; folding decomposed input e + U+0301
leaves the combining mark in place, while the precomposed U+00E9 is reduced
to its base letter. -/
theorem fold_combining_mark_identity :
    List.lookup 0x301 CHAR_REPLACEMENT = none ∧
    unicodeDecomp 0x301 = "" ∧
    foldCharStr unicodeDecomp (Char.ofNat 0x301) = String.singleton (Char.ofNat 0x301) ∧
    foldText unicodeDecomp (String.mk ['e', Char.ofNat 0x301]) =
      String.mk ['e', Char.ofNat 0x301] ∧
    foldText unicodeDecomp (String.singleton (Char.ofNat 0xE9)) = "e" := by
  refine ⟨?_, ?_, ?_, ?_, ?_⟩ <;> decide

/-- C8: the empty raw string and an all-whitespace raw string both build the
empty query expression, the join of zero tokens. -/
theorem buildQuery_empty :
    ∀ decomp : Nat → String, BuildQuery decomp "" = "" ∧ BuildQuery decomp "   " = "" := by
  intro decomp
  exact ⟨rfl, rfl⟩

/-- C4: the query builder splits the raw string on whitespace discarding
empty tokens, appends a `*` wildcard to each token, joins with single spaces
and folds the joined expression afterwards; on "Jane  Doe" this gives the
fold of "Jane* Doe*". -/
theorem buildQuery_spec :
    (∀ (decomp : Nat → String) (raw : String),
      BuildQuery decomp raw =
        foldText decomp (String.intercalate " " ((pySplit raw).map (fun t => t ++ "*")))) ∧
    pySplit "Jane  Doe" = ["Jane", "Doe"] ∧
    BuildQuery unicodeDecomp "Jane  Doe" = foldText unicodeDecomp "Jane* Doe*" := by
  refine ⟨fun decomp raw => rfl, by decide, by decide⟩

/-- C5: the indexed-content builder takes the author, title, translator and
original-title fields of the shelf..borrowed content list, drops the empty
ones, joins the rest with single spaces in order and folds the result, using
the same text folder as the query builder. -/
theorem makeFtsContent_spec :
    (∀ (decomp : Nat → String) (shelf author title translator origTitle borrowed : String),
      MakeFtsContent decomp [shelf, author, title, translator, origTitle, borrowed] =
        foldText decomp
          (String.intercalate " "
            ([author, title, translator, origTitle].filter (fun x => x ≠ "")))) ∧
    (∀ (decomp : Nat → String) (shelf borrowed : String),
      MakeFtsContent decomp [shelf, "Lem", "Solaris", "", "Original", borrowed] =
        foldText decomp "Lem Solaris Original") := by
  constructor
  · intro decomp shelf author title translator origTitle borrowed
    rfl
  · intro decomp shelf borrowed
    show foldText decomp
        (String.intercalate " "
          (["Lem", "Solaris", "", "Original"].filter (fun x => x ≠ ""))) =
      foldText decomp "Lem Solaris Original"
    have h : String.intercalate " "
        (["Lem", "Solaris", "", "Original"].filter (fun x => x ≠ "")) =
        "Lem Solaris Original" := by decide
    rw [h]

/-- C1 counterexample: folding is not idempotent.  U+1EA5 (a with circumflex
and acute) folds to U+00E2 (a with circumflex), which itself folds further to
a; so folding twice differs from folding once, and the folded output
contains a character that does not map to itself. -/
theorem foldText_not_idempotent :
    foldText unicodeDecomp (foldText unicodeDecomp (String.singleton (Char.ofNat 0x1EA5))) ≠
      foldText unicodeDecomp (String.singleton (Char.ofNat 0x1EA5)) ∧
    Char.ofNat 0xE2 ∈ (foldText unicodeDecomp (String.singleton (Char.ofNat 0x1EA5))).data ∧
    foldCharStr unicodeDecomp (Char.ofNat 0xE2) ≠ String.singleton (Char.ofNat 0xE2) := by
  refine ⟨?_, ?_, ?_⟩ <;> decide

/-- C1 amended: folding strips only one decomposition step, so idempotence
holds exactly on strings whose folded output consists of characters that map
to themselves (as every ASCII and single-diacritic Latin-1 letter does), not
for every string. -/
theorem foldText_idempotent_of_selfMapping :
    ∀ (decomp : Nat → String) (s : String),
      (∀ c ∈ (foldText decomp s).data, foldCharStr decomp c = String.singleton c) →
      foldText decomp (foldText decomp s) = foldText decomp s := by
  intro decomp s h
  show foldList decomp (foldText decomp s).data = foldText decomp s
  rw [foldList_eq_self decomp _ h]

/-- C1 witness: the single character U+00E9 folds to "e", whose characters
map to themselves, so folding it twice equals folding it once. -/
theorem foldText_idempotent_witness :
    foldText unicodeDecomp (foldText unicodeDecomp (String.singleton (Char.ofNat 0xE9))) =
      foldText unicodeDecomp (String.singleton (Char.ofNat 0xE9)) :=
  foldText_idempotent_of_selfMapping unicodeDecomp (String.singleton (Char.ofNat 0xE9))
    (by decide)

/-- C9: the fold of a codepoint whose decomposition field is nonempty but
whose first token does not parse as hexadecimal is the identity, and so is
the fold of a codepoint with no decomposition and no override entry. -/
theorem fold_total_fallback :
    ∀ (decomp : Nat → String) (key : Nat),
      (decomp key ≠ "" → ((pySplit (decomp key)).head?.bind parseHex) = none →
        foldCharVal decomp key = .cp key) ∧
      (decomp key = "" → List.lookup key CHAR_REPLACEMENT = none →
        foldCharVal decomp key = .cp key) := by
  intro decomp key
  constructor
  · intro hne hparse
    unfold foldCharVal
    rw [if_neg hne]
    cases hh : (pySplit (decomp key)).head? with
    | none => rfl
    | some tok =>
      rw [hh] at hparse
      have hp : parseHex tok = none := by simpa using hparse
      show (match parseHex tok with
        | some n => FoldVal.cp n
        | none => FoldVal.cp key) = FoldVal.cp key
      rw [hp]
  · intro he hl
    unfold foldCharVal
    rw [if_pos he, hl]

/-- C9 witness: U+FB01 carries the compatibility-tagged field
"<compat> 0066 0069" whose first token is not hexadecimal, and the ASCII
letter a has no decomposition and no override; both fold to themselves. -/
theorem fold_total_fallback_witness :
    foldCharVal unicodeDecomp 0xFB01 = .cp 0xFB01 ∧
    foldCharVal unicodeDecomp 0x61 = .cp 0x61 :=
  ⟨(fold_total_fallback unicodeDecomp 0xFB01).1 (by decide) (by decide),
   (fold_total_fallback unicodeDecomp 0x61).2 (by decide) (by decide)⟩

/-- C3: when no override key has a decomposition (true of the Unicode data:
all the override characters lack decompositions, which is why they are
overridden), the fold computed by the code equals the spec's first-match
resolution order override, then decomposition, then identity; and each
dict lookup returns the per-codepoint fold, caching it without ever changing
an entry of a consistent cache. -/
theorem fold_resolution_order :
    ∀ decomp : Nat → String,
      (∀ p ∈ CHAR_REPLACEMENT, decomp p.1 = "") →
      (∀ key, foldCharVal decomp key = foldCharSpecOrder decomp key) ∧
      (∀ (m : UnaccentedCache) (key : Nat), CacheConsistent decomp m →
        (cacheLookup decomp m key).1 = foldCharVal decomp key ∧
        CacheConsistent decomp (cacheLookup decomp m key).2) := by
  intro decomp hno
  constructor
  · intro key
    cases hl : List.lookup key CHAR_REPLACEMENT with
    | some s =>
      have hd : decomp key = "" := hno (key, s) (lookup_mem hl)
      simp [foldCharVal, foldCharSpecOrder, hl, hd]
    | none =>
      by_cases hd : decomp key = ""
      · simp [foldCharVal, foldCharSpecOrder, hl, hd]
      · simp [foldCharVal, foldCharSpecOrder, hl, hd]
  · intro m key hm
    unfold cacheLookup
    cases hlk : List.lookup key m with
    | some v =>
      exact ⟨hm key v (lookup_mem hlk), hm⟩
    | none =>
      refine ⟨rfl, ?_⟩
      intro k v hkv
      rcases List.mem_cons.mp hkv with heq | hmem
      · have h1 : k = key := congrArg Prod.fst heq
        have h2 : v = foldCharVal decomp key := congrArg Prod.snd heq
        rw [h2, h1]
      · exact hm k v hmem

/-- C3 witness: the equality of the two resolution orders at the sharp s
override and one cache round trip from the empty dict at U+00E9. -/
theorem fold_resolution_order_witness :
    foldCharVal unicodeDecomp 0xDF = foldCharSpecOrder unicodeDecomp 0xDF ∧
    (cacheLookup unicodeDecomp [] 0xE9).1 = foldCharVal unicodeDecomp 0xE9 :=
  ⟨(fold_resolution_order unicodeDecomp (by decide)).1 0xDF,
   ((fold_resolution_order unicodeDecomp (by decide)).2 [] 0xE9
      (fun k v h => absurd h (List.not_mem_nil _))).1⟩

/-- C6: the row sort is stable, two rows with equal collation keys keep
their prior relative order in either direction, and on the spec's example
the two tied "B" rows keep order 1 before 3 behind the "A" row. -/
theorem sortData_stable :
    (∀ (xfrm : String → String) (reverse : Bool) (u v : String × Nat)
        (data : List (String × Nat)),
      xfrm u.1 = xfrm v.1 → List.Sublist [u, v] data →
        List.Sublist [u, v] (sortData xfrm reverse data)) ∧
    sortData id false [("B", 1), ("A", 2), ("B", 3)] = [("A", 2), ("B", 1), ("B", 3)] := by
  constructor
  · intro xfrm reverse u v data hk hsub
    exact List.pair_sublist_insertionSort (sortLe_of_key_eq xfrm reverse hk) hsub
  · decide

/-- C6 witness: the two tied "B" rows of the spec's example stay in order
after sorting. -/
theorem sortData_stable_witness :
    List.Sublist ([("B", 1), ("B", 3)] : List (String × Nat))
      (sortData id false [("B", 1), ("A", 2), ("B", 3)]) :=
  sortData_stable.1 id false ("B", 1) ("B", 3) [("B", 1), ("A", 2), ("B", 3)] rfl
    (by decide)

/-- C2 counterexample: from the post-startup state (last-sorted column
Author, ascending, Author's heading command now armed to descending),
clicking Title sorts Title ascending; then clicking Author, a column
different from the last-sorted Title, sorts descending, not ascending: a
column's heading keeps its own pending toggle, so clicking a different
column does not reset to ascending. -/
theorem sortToggle_cex :
    ReachableSortState (clickHeader initState "Title") ∧
    (clickHeader initState "Title").clickedColumn = "Title" ∧
    (clickHeader initState "Title").reverse = false ∧
    (clickHeader (clickHeader initState "Title") "Author").reverse = true :=
  ⟨ReachableSortState.click _ _ ReachableSortState.init, by decide, by decide, by decide⟩

/-- C2 amended: the last-sorted column and direction are remembered and
reapplied by a refresh; clicking the last-sorted column again flips its
direction; and clicking any column sorts with that column's own remembered
pending direction, which is ascending for a column not sorted since
startup, but not necessarily ascending for a previously toggled column. -/
theorem sortToggle_behavior :
    (∀ s : AppSortState,
      (refreshState s).clickedColumn = s.clickedColumn ∧
        (refreshState s).reverse = s.reverse) ∧
    (∀ s : AppSortState, ReachableSortState s →
      (clickHeader s s.clickedColumn).reverse = !s.reverse) ∧
    (∀ (s : AppSortState) (c : String), (clickHeader s c).reverse = s.headingReverse c) ∧
    (∀ c : String, c ≠ "Author" → (clickHeader initState c).reverse = false) := by
  refine ⟨fun s => ⟨rfl, rfl⟩, ?_, fun s c => rfl, ?_⟩
  · intro s hs
    show s.headingReverse s.clickedColumn = !s.reverse
    exact reachable_toggle_inv hs
  · intro c hc
    show (if c = "Author" then !false else preInitState.headingReverse c) = false
    rw [if_neg hc]
    rfl

/-- C2 witness: from the post-startup state, re-clicking the last-sorted
Author column flips to descending, and clicking the fresh Title column
sorts ascending. -/
theorem sortToggle_behavior_witness :
    (clickHeader initState "Author").reverse = !initState.reverse ∧
    (clickHeader initState "Title").reverse = false :=
  ⟨sortToggle_behavior.2.1 initState ReachableSortState.init,
   sortToggle_behavior.2.2.2 "Title" (by decide)⟩
